import Mathlib

/-!
Formal model of the segment-metrics and multi-session comparison engine of the
CQwebsite repository (src/lib/utils.ts, src/lib/splits.ts, src/lib/session.ts,
src/lib/metrics.ts, src/lib/compare.ts, src/types/session.ts).

Numbers are modelled by the exact rationals; JavaScript `Math.round(x)` and the
rounding performed by `x.toFixed(3)` both round half toward positive infinity,
which is `⌊x + 1/2⌋` in exact arithmetic.  A JavaScript mark map
`Record<string, number | null>` is modelled as a function
`String → Option (Option ℚ)`: an absent key is `none` (JS `undefined`), a key
mapped to JS `null` is `some none`, and a recorded value `t` is `some (some t)`.
-/

namespace CQ

/-- Mark maps: JS `Record<string, number | null>` with absent keys observable. -/
abbrev Marks := String → Option (Option ℚ)

/-- utils.ts `roundTo(value, decimals)`:
`Math.round(value * 10 ** decimals) / 10 ** decimals`. -/
def roundTo (value : ℚ) (decimals : ℕ) : ℚ :=
  ⌊value * 10 ^ decimals + 1/2⌋ / 10 ^ decimals

/-! ### Decimal rendering of labels (utils.ts `distanceToLabel`)

`distanceToLabel` first rounds to 3 decimals (`Number(distance.toFixed(3))`),
so the value to print is an integer number of thousandths `m`.  The printed
form is the minimal decimal representation: no trailing zeros in the
fractional part and no trailing decimal point, and plain integer notation when
`m` is a multiple of 1000. -/

/-- The character for a decimal digit `d < 10`. -/
def digitChar (d : ℕ) : Char := Char.ofNat (48 + d)

/-- Little-endian decimal digits of `n`; the first argument is fuel that
dominates `n` so the recursion is structural. -/
def natToRevDigits : ℕ → ℕ → List ℕ
  | 0, _ => []
  | fuel + 1, n => if n = 0 then [] else n % 10 :: natToRevDigits fuel (n / 10)

/-- Big-endian character list of the decimal representation of `n`. -/
def natToChars (n : ℕ) : List Char :=
  if n = 0 then ['0'] else ((natToRevDigits n n).map digitChar).reverse

/-- The fractional characters for `f` thousandths (`0 < f < 1000`), with the
trailing zeros stripped, as the JS `toString`/regex pipeline produces. -/
def fracChars (f : ℕ) : List Char :=
  if f % 10 ≠ 0 then [digitChar (f / 100), digitChar (f / 10 % 10), digitChar (f % 10)]
  else if f % 100 ≠ 0 then [digitChar (f / 100), digitChar (f / 10 % 10)]
  else [digitChar (f / 100)]

/-- Render `m` thousandths as the canonical decimal string. -/
def renderThousandths (m : ℤ) : String :=
  let n := m.natAbs
  let sign : List Char := if m < 0 then ['-'] else []
  if n % 1000 = 0 then ⟨sign ++ natToChars (n / 1000)⟩
  else ⟨sign ++ natToChars (n / 1000) ++ '.' :: fracChars (n % 1000)⟩

/-- utils.ts `distanceToLabel(distance)`: round to 3 decimals, print an integer
with no decimal point and anything else with its trailing zeros stripped. -/
def distanceToLabel (distance : ℚ) : String :=
  renderThousandths ⌊distance * 1000 + 1/2⌋

/-! ### Decimal parsing

Modelled from the spec: the `label_as_number` conversion used by the
idempotence property of §4.1 (converting a canonical label back to the number
it denotes).  The repository keeps labels as strings, so the conversion is the
standard denotation of a signed decimal numeral. -/

/-- The digit denoted by a character, if any. -/
def charToDigit (c : Char) : Option ℕ :=
  if 48 ≤ c.toNat ∧ c.toNat ≤ 57 then some (c.toNat - 48) else none

/-- Fold a big-endian digit-character list onto an accumulator. -/
def parseDigitsAux : ℕ → List Char → Option ℕ
  | acc, [] => some acc
  | acc, c :: cs =>
    match charToDigit c with
    | some d => parseDigitsAux (acc * 10 + d) cs
    | none => none

/-- Parse a nonempty big-endian digit string. -/
def parseDigits : List Char → Option ℕ
  | [] => none
  | c :: cs => parseDigitsAux 0 (c :: cs)

/-- Split a character list at the first decimal point, if present. -/
def splitFrac : List Char → List Char × Option (List Char)
  | [] => ([], none)
  | c :: cs =>
    if c = '.' then ([], some cs)
    else
      let (ip, fp) := splitFrac cs
      (c :: ip, fp)

/-- Parse an unsigned decimal numeral `digits[.digits]`. -/
def parseUnsigned (l : List Char) : Option ℚ :=
  match splitFrac l with
  | (ip, none) => (parseDigits ip).map (fun n => (n : ℚ))
  | (ip, some fp) =>
    match parseDigits ip, parseDigits fp with
    | some n, some f => some ((n : ℚ) + (f : ℚ) / 10 ^ fp.length)
    | _, _ => none

/-- Parse a signed decimal numeral. -/
def parseDecimal (s : String) : Option ℚ :=
  match s.data with
  | [] => none
  | c :: cs => if c = '-' then (parseUnsigned cs).map Neg.neg else parseUnsigned (c :: cs)

/-! ### types/session.ts -/

/-- types/session.ts `SplitChoice`. -/
inductive SplitChoice where
  | quarter
  | half
  | full
deriving DecidableEq

/-- types/session.ts `Granularity` (an alias of `SplitChoice`). -/
abbrev Granularity := SplitChoice

/-- types/session.ts `Session`, restricted to the fields the comparison core
reads; the remaining descriptive attributes (athlete, start type, capture
date, riders, fps, ...) are opaque payload never touched by these functions. -/
structure Session where
  video : String := ""
  videoKey : String
  split_choice : SplitChoice := SplitChoice.quarter
  distance_total_m : ℚ := 0
  distances : List ℚ := []
  marks_abs : Marks

/-- types/session.ts `MetricsRow`; the source fields `from`/`to` are named
`fromDist`/`toDist` here because `from` is reserved. -/
structure MetricsRow where
  fromDist : ℚ
  toDist : ℚ
  deltaT : ℚ
  deltaD : ℚ
  velocityKmh : ℚ
  acceleration : Option ℚ
deriving DecidableEq

/-! ### splits.ts (`buildSplitDistances`) -/

/-- splits.ts `LAP_M`. -/
def LAP_M : ℚ := 250

/-- splits.ts `QUARTER_M`. -/
def QUARTER_M : ℚ := LAP_M / 4

/-- splits.ts `HALF_M`. -/
def HALF_M : ℚ := LAP_M / 2

/-- splits.ts `SPLIT_STEPS`. -/
def splitStep : SplitChoice → ℚ
  | SplitChoice.quarter => QUARTER_M
  | SplitChoice.half => HALF_M
  | SplitChoice.full => LAP_M

/-- One JS `Set.add`: append the element unless it is already present.  JS sets
keep first-insertion order. -/
def setAdd (acc : List ℚ) (d : ℚ) : List ℚ :=
  if d ∈ acc then acc else acc ++ [d]

/-- JS `Array.from(new Set(list))`: deduplicate keeping first occurrences. -/
def setOfList (l : List ℚ) : List ℚ :=
  l.foldl setAdd []

/-- The loop `for (let distance = step; distance <= totalMeters + 1e-6;
distance += step) distances.push(Number(distance.toFixed(3)))`: iteration `i`
pushes the rounding of `(i + 1) * step`, and the loop runs while the unrounded
accumulator stays at most `totalMeters + 1e-6`. -/
def splitMultiples (step totalMeters : ℚ) : List ℚ :=
  (List.range ⌊(totalMeters + 1/1000000) / step⌋.toNat).map
    (fun i => roundTo ((i + 1 : ℕ) * step) 3)

/-- splits.ts lines 148-150: if no multiple was generated, or the last one is
more than the tolerance short of `totalMeters`, push `totalMeters` rounded to
3 decimals. -/
def withEndDistance (totalMeters : ℚ) (distances : List ℚ) : List ℚ :=
  match distances.getLast? with
  | none => [roundTo totalMeters 3]
  | some last =>
    if last < totalMeters - 1/1000000 then distances ++ [roundTo totalMeters 3]
    else distances

/-- splits.ts `buildSplitDistances(totalMeters, choice)`. -/
def buildSplitDistances (totalMeters : ℚ) (choice : SplitChoice) : List ℚ :=
  if splitStep choice ≤ 0 ∨ totalMeters ≤ 0 then []
  else
    List.insertionSort (· ≤ ·)
      (setOfList (withEndDistance totalMeters (splitMultiples (splitStep choice) totalMeters)))

/-! ### session.ts -/

/-- session.ts `getStartTime(marks)`: `marks["Start time"] ?? null`. -/
def getStartTime (marks : Marks) : Option ℚ :=
  (marks "Start time").getD none

/-- The body of session.ts `buildDistanceSeries` once a start mark is known:
one `(distance, relative time)` entry per stored distance whose canonical
label has a recorded mark. -/
def distanceSeriesEntries (session : Session) (start : ℚ) : List (ℚ × ℚ) :=
  session.distances.filterMap (fun distance =>
    ((session.marks_abs (distanceToLabel distance)).getD none).map
      (fun value => (distance, roundTo (value - start) 3)))

/-- session.ts `buildDistanceSeries(session)`. -/
def buildDistanceSeries (session : Session) : List (ℚ × ℚ) :=
  match getStartTime session.marks_abs with
  | none => []
  | some start => distanceSeriesEntries session start

/-! ### metrics.ts (`buildMetrics`) -/

/-- One checkpoint of the metrics walk: a distance, its mark key, and the
recorded absolute time if any. -/
structure Checkpoint where
  distance : ℚ
  label : String
  time : Option ℚ

/-- The filter `.filter((d) => d > 0)`. -/
def filterPos : List ℚ → List ℚ
  | [] => []
  | d :: rest => if 0 < d then d :: filterPos rest else filterPos rest

/-- metrics.ts lines 10-11: round the distances to 3 decimals, deduplicate,
keep the strictly positive ones, sort ascending. -/
def sortedUniqueDistances (distances : List ℚ) : List ℚ :=
  List.insertionSort (· ≤ ·)
    (filterPos (setOfList (distances.map (fun d => roundTo d 3))))

/-- metrics.ts `points`: the start checkpoint at distance 0 followed by the
cleaned distances, each paired with the mark stored under its label. -/
def checkpoints (distances : List ℚ) (marks : Marks) (startAbs : ℚ) : List Checkpoint :=
  { distance := 0, label := "Start time", time := some startAbs } ::
    (sortedUniqueDistances distances).map (fun distance =>
      { distance := distance, label := distanceToLabel distance,
        time := (marks (distanceToLabel distance)).getD none })

/-- The loop of metrics.ts lines 27-53, walking consecutive checkpoint pairs
and pushing rows; the acceleration of a new row reads `rows.at(-1)`, the last
row pushed so far. -/
def metricsLoop (rows : List MetricsRow) : List Checkpoint → List MetricsRow
  | p :: q :: rest =>
    match p.time, q.time with
    | some tc, some tn =>
      let deltaT := tn - tc
      let deltaD := q.distance - p.distance
      if deltaT ≤ 0 ∨ deltaD ≤ 0 then metricsLoop rows (q :: rest)
      else
        let velocityMs := deltaD / deltaT
        let acceleration : Option ℚ :=
          rows.getLast?.map (fun previous => (velocityMs - previous.deltaD / previous.deltaT) / deltaT)
        metricsLoop (rows ++
          [{ fromDist := roundTo p.distance 3, toDist := roundTo q.distance 3,
             deltaT := roundTo deltaT 3, deltaD := roundTo deltaD 3,
             velocityKmh := roundTo (velocityMs * 3.6) 3,
             acceleration := acceleration.map (fun a => roundTo a 3) }]) (q :: rest)
    | _, _ => metricsLoop rows (q :: rest)
  | _ => rows

/-- metrics.ts `buildMetrics(distances, marks)`. -/
def buildMetrics (distances : List ℚ) (marks : Marks) : List MetricsRow :=
  match marks "Start time" with
  | some (some startAbs) => metricsLoop [] (checkpoints distances marks startAbs)
  | _ => []

/-- Modelled from the spec (§9): the same walk with the implicit
`rows.at(-1)` state made explicit, threading the previous successfully
emitted row; the acceleration is `none` exactly when no row has been emitted
yet. -/
def walkPrev (prev : Option MetricsRow) : List Checkpoint → List MetricsRow
  | p :: q :: rest =>
    match p.time, q.time with
    | some tc, some tn =>
      let deltaT := tn - tc
      let deltaD := q.distance - p.distance
      if deltaT ≤ 0 ∨ deltaD ≤ 0 then walkPrev prev (q :: rest)
      else
        let velocityMs := deltaD / deltaT
        let acceleration : Option ℚ :=
          prev.map (fun previous => (velocityMs - previous.deltaD / previous.deltaT) / deltaT)
        let row : MetricsRow :=
          { fromDist := roundTo p.distance 3, toDist := roundTo q.distance 3,
            deltaT := roundTo deltaT 3, deltaD := roundTo deltaD 3,
            velocityKmh := roundTo (velocityMs * 3.6) 3,
            acceleration := acceleration.map (fun a => roundTo a 3) }
        row :: walkPrev (some row) (q :: rest)
    | _, _ => walkPrev prev (q :: rest)
  | _ => []

/-- Modelled from the spec (§9): `buildMetrics` with the explicit
previous-row fold. -/
def buildMetricsPrev (distances : List ℚ) (marks : Marks) : List MetricsRow :=
  match marks "Start time" with
  | some (some startAbs) => walkPrev none (checkpoints distances marks startAbs)
  | _ => []

/-! ### compare.ts -/

/-- compare.ts `TableRow`; `values` keeps one `(videoKey, value)` pair per
compared session, in session order, as the JS object construction does for
sessions with pairwise distinct keys. -/
structure TableRow where
  distance : ℚ
  label : String
  values : List (String × Option ℚ)
deriving DecidableEq

/-- compare.ts `TableRow & deltas`, the result shape of `annotateDiffs`. -/
structure AnnotatedRow where
  distance : ℚ
  label : String
  values : List (String × Option ℚ)
  deltas : List (String × Option ℚ)
deriving DecidableEq

/-- The per-session contribution to the row-distance set of
`buildTotalTimeRows`: every session distance rounded to 3 decimals, plus 15
whenever the mark map has the key "15" (present even with a null value: the
source tests `!== undefined`). -/
def collectStep (acc : List ℚ) (session : Session) : List ℚ :=
  let acc2 := session.distances.foldl (fun a distance => setAdd a (roundTo distance 3)) acc
  if (session.marks_abs "15").isSome then setAdd acc2 15 else acc2

/-- compare.ts lines 13-21: the union of row distances, starting from `{0}`. -/
def collectTotalDistances (sessions : List Session) : List ℚ :=
  sessions.foldl collectStep [0]

/-- JS object indexing `record[key]`: the value stored under a key, if any. -/
def recordGet (l : List (String × Option ℚ)) (k : String) : Option (Option ℚ) :=
  match l with
  | [] => none
  | (key, v) :: rest => if key = k then some v else recordGet rest k

/-- compare.ts line 22: the collected distances sorted ascending. -/
def totalRowDistances (sessions : List Session) : List ℚ :=
  List.insertionSort (· ≤ ·) (collectTotalDistances sessions)

/-- The per-session cell of `buildTotalTimeRows` (compare.ts lines 27-44). -/
def totalValue (session : Session) (distance : ℚ) : Option ℚ :=
  match getStartTime session.marks_abs with
  | none => none
  | some start =>
    if distance = 0 then some 0
    else
      match (if distance = 15 then (session.marks_abs "15").getD none else none) with
      | some t => some (roundTo (t - start) 3)
      | none =>
        ((session.marks_abs (distanceToLabel distance)).getD none).map
          (fun absolute => roundTo (absolute - start) 3)

/-- compare.ts `buildTotalTimeRows(sessions)`. -/
def buildTotalTimeRows (sessions : List Session) : List TableRow :=
  (totalRowDistances sessions).map (fun distance =>
    { distance := distance,
      label := if distance = 0 then "Start" else distanceToLabel distance,
      values := sessions.map (fun session => (session.videoKey, totalValue session distance)) })

/-- The per-session cell of `buildSplitTimeRows` (compare.ts lines 56-71):
time from the previous grid checkpoint (or the start mark) to the current
one. -/
def splitValue (session : Session) (previous distance : ℚ) : Option ℚ :=
  match getStartTime session.marks_abs with
  | none => none
  | some start =>
    let currentValue := (session.marks_abs (distanceToLabel distance)).getD none
    let previousValue :=
      if previous = 0 then some start
      else (session.marks_abs (distanceToLabel previous)).getD none
    match currentValue, previousValue with
    | some c, some p => some (roundTo (c - p) 3)
    | _, _ => none

/-- The row loop of `buildSplitTimeRows`: `rows.at(-1)?.distance ?? 0` is the
distance of the previously built row, threaded explicitly. -/
def splitRowsAux (sessions : List Session) : ℚ → List ℚ → List TableRow
  | _, [] => []
  | previous, distance :: rest =>
    { distance := distance, label := distanceToLabel distance,
      values := sessions.map (fun session =>
        (session.videoKey, splitValue session previous distance)) } ::
      splitRowsAux sessions distance rest

/-- compare.ts `maxDistance(sessions)`. -/
def maxDistance (sessions : List Session) : ℚ :=
  sessions.foldl (fun m session => max m session.distance_total_m) 0

/-- compare.ts `buildSplitTimeRows(sessions, granularity)`. -/
def buildSplitTimeRows (sessions : List Session) (granularity : Granularity) : List TableRow :=
  splitRowsAux sessions 0 (buildSplitDistances (maxDistance sessions) granularity)

/-- compare.ts `annotateDiffs(rows, referenceKey)`.  The JS reference value is
`referenceKey ? row.values[referenceKey] ?? null : null`, so an empty
reference string (falsy) behaves like a missing reference. -/
def annotateDiffs (rows : List TableRow) (referenceKey : Option String) : List AnnotatedRow :=
  rows.map (fun row =>
    let referenceValue : Option ℚ :=
      match referenceKey with
      | none => none
      | some k => if k = "" then none else (recordGet row.values k).getD none
    { distance := row.distance, label := row.label, values := row.values,
      deltas := row.values.map (fun cell =>
        (cell.1,
          match referenceValue, cell.2 with
          | some rv, some v =>
            if referenceKey = some cell.1 then none else some (roundTo (v - rv) 3)
          | _, _ => none)) })

/-! ### Concrete inputs for the scenario results -/

/-- The value of a little-endian decimal digit list (proof support). -/
def revVal : List ℕ → ℕ
  | [] => 0
  | d :: ds => d + 10 * revVal ds

/-- Scenario A, session A marks: Start=5, 62.5=8, 125=11.5, 187.5=15, 250=19.2. -/
def marksA : Marks := fun k =>
  if k = "Start time" then some (some 5)
  else if k = "62.5" then some (some 8)
  else if k = "125" then some (some 11.5)
  else if k = "187.5" then some (some 15)
  else if k = "250" then some (some 19.2)
  else none

/-- Scenario A, session B marks: Start=6, 62.5=9.5, 125=13, 187.5=16.8, 250=21. -/
def marksB : Marks := fun k =>
  if k = "Start time" then some (some 6)
  else if k = "62.5" then some (some 9.5)
  else if k = "125" then some (some 13)
  else if k = "187.5" then some (some 16.8)
  else if k = "250" then some (some 21)
  else none

/-- Scenario A, session A. -/
def sessionA : Session :=
  { videoKey := "A", distance_total_m := 250,
    distances := [62.5, 125, 187.5, 250], marks_abs := marksA }

/-- Scenario A, session B. -/
def sessionB : Session :=
  { videoKey := "B", distance_total_m := 250,
    distances := [62.5, 125, 187.5, 250], marks_abs := marksB }

/-- Marks with an out-of-order middle checkpoint: the pair 10→20 has a
negative time delta and is skipped, while 0→10 and 20→30 produce rows. -/
def marksSkip : Marks := fun k =>
  if k = "Start time" then some (some 0)
  else if k = "10" then some (some 1)
  else if k = "20" then some (some 0.5)
  else if k = "30" then some (some 3)
  else none

/-- Marks whose only segment has time delta 0.0001, which is positive but
rounds to 0 at emission. -/
def marksTiny : Marks := fun k =>
  if k = "Start time" then some (some 0)
  else if k = "1" then some (some 0.0001)
  else none

/-- A session whose mark map has the key "15" present but null. -/
def session15 : Session :=
  { videoKey := "S", marks_abs := fun k => if k = "15" then some none else none }

/-- A session that recorded a 15-meter mark. -/
def sessionRec15 : Session :=
  { videoKey := "R", marks_abs := fun k => if k = "15" then some (some 2) else none }

/-- A session with a distance mark but no start mark. -/
def sessionNoStart : Session :=
  { videoKey := "N", distances := [50],
    marks_abs := fun k => if k = "50" then some (some 3) else none }

/-- Marks with start 0 and a single 100-meter mark at 10 seconds. -/
def marksHundred : Marks := fun k =>
  if k = "Start time" then some (some 0)
  else if k = "100" then some (some 10)
  else none

/-- A session built on `marksHundred`, whose start mark is exactly 0. -/
def sessionZeroStart : Session :=
  { videoKey := "Z", distance_total_m := 100, distances := [100],
    marks_abs := marksHundred }

/-- A one-row table for exercising `annotateDiffs`. -/
def rowsW9 : List TableRow :=
  [{ distance := 0, label := "Start", values := [("A", some 0), ("B", some 1)] }]

/-! ## Theorems -/

/-! ### Rounding -/

/-- `roundTo _ 3` lands on an integer number of thousandths. -/
theorem roundTo_eq (q : ℚ) : roundTo q 3 = (⌊q * 1000 + 1/2⌋ : ℚ) / 1000 := by
  norm_num [roundTo]

/-- Rounding half up fixes every integer number of thousandths. -/
theorem floor_thousandths (m : ℤ) : ⌊(m : ℚ) / 1000 * 1000 + 1/2⌋ = m := by
  have h : (m : ℚ) / 1000 * 1000 = (m : ℚ) := by
    field_simp
  rw [h, Int.floor_int_add]
  norm_num

/-- `roundTo _ 3` fixes every integer number of thousandths. -/
theorem roundTo_thousandths (m : ℤ) : roundTo ((m : ℚ) / 1000) 3 = (m : ℚ) / 1000 := by
  rw [roundTo_eq, floor_thousandths]

/-- Every rounded value is an integer number of thousandths. -/
theorem exists_int_roundTo (q : ℚ) : ∃ m : ℤ, roundTo q 3 = (m : ℚ) / 1000 :=
  ⟨_, roundTo_eq q⟩

/-- `roundTo _ 3` is idempotent. -/
theorem roundTo_idem (q : ℚ) : roundTo (roundTo q 3) 3 = roundTo q 3 := by
  obtain ⟨m, hm⟩ := exists_int_roundTo q
  rw [hm, roundTo_thousandths]

/-- Rounding a nonnegative value stays nonnegative. -/
theorem roundTo_nonneg (q : ℚ) (h : 0 ≤ q) : 0 ≤ roundTo q 3 := by
  rw [roundTo_eq]
  have hf : (0 : ℤ) ≤ ⌊q * 1000 + 1/2⌋ := Int.le_floor.mpr (by push_cast; linarith)
  have : (0 : ℚ) ≤ (⌊q * 1000 + 1/2⌋ : ℚ) := by exact_mod_cast hf
  linarith

/-! ### Digits and labels -/

/-- `charToDigit` inverts `digitChar` on digits. -/
theorem charToDigit_digitChar (d : ℕ) (h : d < 10) : charToDigit (digitChar d) = some d := by
  interval_cases d <;> decide

/-- A digit character is not the decimal point. -/
theorem digitChar_ne_dot (d : ℕ) (h : d < 10) : digitChar d ≠ '.' := by
  interval_cases d <;> decide

/-- A digit character is not the minus sign. -/
theorem digitChar_ne_dash (d : ℕ) (h : d < 10) : digitChar d ≠ '-' := by
  interval_cases d <;> decide

/-- All entries of `natToRevDigits` are digits. -/
theorem natToRevDigits_lt_ten (fuel : ℕ) : ∀ n, ∀ d ∈ natToRevDigits fuel n, d < 10 := by
  induction fuel with
  | zero => intro n d hd; simp [natToRevDigits] at hd
  | succ fuel ih =>
    intro n d hd
    rw [natToRevDigits] at hd
    by_cases hn : n = 0
    · simp [hn] at hd
    · rw [if_neg hn] at hd
      rcases List.mem_cons.mp hd with h | h
      · omega
      · exact ih _ _ h

/-- `parseDigitsAux` processes an append in two stages. -/
theorem parseDigitsAux_append (l₁ l₂ : List Char) (acc : ℕ) :
    parseDigitsAux acc (l₁ ++ l₂) =
      Option.bind (parseDigitsAux acc l₁) (fun b => parseDigitsAux b l₂) := by
  induction l₁ generalizing acc with
  | nil => simp [parseDigitsAux]
  | cons c cs ih =>
    rw [List.cons_append, parseDigitsAux, parseDigitsAux]
    cases hc : charToDigit c with
    | none => simp
    | some d => simp [ih]

/-- Parsing the reversed character rendering of a little-endian digit list. -/
theorem parse_rev_digits (ds : List ℕ) (h : ∀ d ∈ ds, d < 10) (acc : ℕ) :
    parseDigitsAux acc ((ds.map digitChar).reverse) =
      some (acc * 10 ^ ds.length + revVal ds) := by
  induction ds generalizing acc with
  | nil => simp [parseDigitsAux, revVal]
  | cons d ds ih =>
    rw [List.map_cons, List.reverse_cons, parseDigitsAux_append]
    rw [ih (fun x hx => h x (List.mem_cons_of_mem _ hx))]
    have hd : d < 10 := h d (List.mem_cons_self d ds)
    simp only [Option.bind_some, parseDigitsAux, charToDigit_digitChar d hd]
    rw [Option.some_bind]
    congr 1
    rw [revVal, List.length_cons, pow_succ]
    ring

/-- With enough fuel, `natToRevDigits` lists the digits of its argument. -/
theorem natToRevDigits_val (fuel : ℕ) : ∀ n, n ≤ fuel → revVal (natToRevDigits fuel n) = n := by
  induction fuel with
  | zero =>
    intro n hn
    interval_cases n
    simp [natToRevDigits, revVal]
  | succ fuel ih =>
    intro n hn
    rw [natToRevDigits]
    by_cases hn0 : n = 0
    · simp [hn0, revVal]
    · rw [if_neg hn0, revVal, ih (n / 10) (by omega)]
      omega

/-- `parseDigits` on a nonempty list runs the digit fold. -/
theorem parseDigits_eq (l : List Char) (h : l ≠ []) : parseDigits l = parseDigitsAux 0 l := by
  cases l with
  | nil => exact absurd rfl h
  | cons c cs => rfl

/-- With positive fuel and argument, `natToRevDigits` is nonempty. -/
theorem natToRevDigits_ne_nil (n : ℕ) (hn : n ≠ 0) : natToRevDigits n n ≠ [] := by
  cases n with
  | zero => exact absurd rfl hn
  | succ m =>
    rw [natToRevDigits]
    simp

/-- `natToChars` is never empty. -/
theorem natToChars_ne_nil (n : ℕ) : natToChars n ≠ [] := by
  rw [natToChars]
  by_cases hn : n = 0
  · simp [hn]
  · rw [if_neg hn]
    intro hcon
    rw [List.reverse_eq_nil_iff, List.map_eq_nil_iff] at hcon
    exact natToRevDigits_ne_nil n hn hcon

/-- Every character of `natToChars` is a digit character. -/
theorem natToChars_digits (n : ℕ) : ∀ c ∈ natToChars n, ∃ d, d < 10 ∧ c = digitChar d := by
  intro c hc
  rw [natToChars] at hc
  by_cases hn : n = 0
  · rw [if_pos hn] at hc
    simp at hc
    exact ⟨0, by omega, by rw [hc]; rfl⟩
  · rw [if_neg hn] at hc
    rw [List.mem_reverse] at hc
    obtain ⟨d, hd, hcd⟩ := List.mem_map.mp hc
    exact ⟨d, natToRevDigits_lt_ten n n d hd, hcd.symm⟩

/-- Parsing inverts rendering on natural numbers. -/
theorem parseDigits_natToChars (n : ℕ) : parseDigits (natToChars n) = some n := by
  rw [parseDigits_eq _ (natToChars_ne_nil n)]
  by_cases hn : n = 0
  · subst hn; decide
  · rw [natToChars, if_neg hn]
    rw [parse_rev_digits _ (natToRevDigits_lt_ten n n)]
    rw [natToRevDigits_val n n le_rfl]
    simp

/-- Every character of `fracChars` is a digit character. -/
theorem fracChars_digits (f : ℕ) (hf : f < 1000) :
    ∀ c ∈ fracChars f, ∃ d, d < 10 ∧ c = digitChar d := by
  intro c hc
  rw [fracChars] at hc
  split at hc
  · simp only [List.mem_cons, List.not_mem_nil, or_false] at hc
    rcases hc with h | h | h
    · exact ⟨f / 100, by omega, h⟩
    · exact ⟨f / 10 % 10, by omega, h⟩
    · exact ⟨f % 10, by omega, h⟩
  · split at hc
    · simp only [List.mem_cons, List.not_mem_nil, or_false] at hc
      rcases hc with h | h
      · exact ⟨f / 100, by omega, h⟩
      · exact ⟨f / 10 % 10, by omega, h⟩
    · simp only [List.mem_cons, List.not_mem_nil, or_false] at hc
      exact ⟨f / 100, by omega, hc⟩

/-- `splitFrac` passes through a dot-free list untouched. -/
theorem splitFrac_no_dot (l : List Char) (h : ∀ c ∈ l, c ≠ '.') :
    splitFrac l = (l, none) := by
  induction l with
  | nil => rfl
  | cons c cs ih =>
    rw [splitFrac, if_neg (h c (List.mem_cons_self c cs))]
    rw [ih (fun x hx => h x (List.mem_cons_of_mem _ hx))]

/-- `splitFrac` splits at the first dot after a dot-free prefix. -/
theorem splitFrac_dot (l₁ l₂ : List Char) (h : ∀ c ∈ l₁, c ≠ '.') :
    splitFrac (l₁ ++ '.' :: l₂) = (l₁, some l₂) := by
  induction l₁ with
  | nil => simp [splitFrac]
  | cons c cs ih =>
    rw [List.cons_append, splitFrac, if_neg (h c (List.mem_cons_self c cs))]
    rw [ih (fun x hx => h x (List.mem_cons_of_mem _ hx))]

/-- No character of `natToChars` is a dot. -/
theorem natToChars_no_dot (n : ℕ) : ∀ c ∈ natToChars n, c ≠ '.' := by
  intro c hc
  obtain ⟨d, hd, rfl⟩ := natToChars_digits n c hc
  exact digitChar_ne_dot d hd

/-- Parsing inverts rendering on an integer label. -/
theorem parseUnsigned_natToChars (k : ℕ) : parseUnsigned (natToChars k) = some (k : ℚ) := by
  rw [parseUnsigned, splitFrac_no_dot _ (natToChars_no_dot k)]
  simp [parseDigits_natToChars]

/-- Parsing the stripped fractional characters recovers the thousandths. -/
theorem parseDigits_fracChars (f : ℕ) (hf : f < 1000) :
    ∃ v : ℕ, parseDigits (fracChars f) = some v ∧
      (v : ℚ) / 10 ^ (fracChars f).length = (f : ℚ) / 1000 := by
  rw [fracChars]
  by_cases h10 : f % 10 ≠ 0
  · rw [if_pos h10]
    refine ⟨((0 * 10 + f / 100) * 10 + f / 10 % 10) * 10 + f % 10, ?_, ?_⟩
    · rw [parseDigits_eq _ (by simp)]
      simp only [parseDigitsAux, charToDigit_digitChar (f / 100) (by omega),
        charToDigit_digitChar (f / 10 % 10) (by omega), charToDigit_digitChar (f % 10) (by omega)]
    · rw [div_eq_div_iff (by positivity) (by norm_num)]
      have key : (((0 * 10 + f / 100) * 10 + f / 10 % 10) * 10 + f % 10) * 1000 = f * 10 ^ 3 := by
        omega
      exact_mod_cast by simpa using key
  · rw [if_neg h10]
    by_cases h100 : f % 100 ≠ 0
    · rw [if_pos h100]
      refine ⟨(0 * 10 + f / 100) * 10 + f / 10 % 10, ?_, ?_⟩
      · rw [parseDigits_eq _ (by simp)]
        simp only [parseDigitsAux, charToDigit_digitChar (f / 100) (by omega),
          charToDigit_digitChar (f / 10 % 10) (by omega)]
      · rw [div_eq_div_iff (by positivity) (by norm_num)]
        have key : ((0 * 10 + f / 100) * 10 + f / 10 % 10) * 1000 = f * 10 ^ 2 := by
          omega
        exact_mod_cast by simpa using key
    · rw [if_neg h100]
      refine ⟨0 * 10 + f / 100, ?_, ?_⟩
      · rw [parseDigits_eq _ (by simp)]
        simp only [parseDigitsAux, charToDigit_digitChar (f / 100) (by omega)]
      · rw [div_eq_div_iff (by positivity) (by norm_num)]
        have key : (0 * 10 + f / 100) * 1000 = f * 10 ^ 1 := by
          omega
        exact_mod_cast by simpa using key

/-- Parsing inverts rendering on a fractional label. -/
theorem parseUnsigned_render (k f : ℕ) (hf : f < 1000) :
    parseUnsigned (natToChars k ++ '.' :: fracChars f) =
      some ((k : ℚ) + (f : ℚ) / 1000) := by
  rw [parseUnsigned, splitFrac_dot _ _ (natToChars_no_dot k)]
  obtain ⟨v, hv, hval⟩ := parseDigits_fracChars f hf
  simp only [parseDigits_natToChars, hv]
  rw [hval]

/-- `parseDecimal` on an explicit character list. -/
theorem parseDecimal_no_dash (l : List Char) (hne : l ≠ [])
    (hhead : ∀ c ∈ l, c ≠ '-') : parseDecimal ⟨l⟩ = parseUnsigned l := by
  cases l with
  | nil => exact absurd rfl hne
  | cons c cs =>
    have hstep : parseDecimal ⟨c :: cs⟩ =
        if c = '-' then (parseUnsigned cs).map Neg.neg else parseUnsigned (c :: cs) := rfl
    rw [hstep, if_neg (hhead c (List.mem_cons_self c cs))]

/-- `parseDecimal` strips a leading minus sign. -/
theorem parseDecimal_dash (l : List Char) :
    parseDecimal ⟨'-' :: l⟩ = (parseUnsigned l).map Neg.neg := rfl

/-- The unsigned part of `renderThousandths` parses back to `n / 1000`. -/
theorem parseUnsigned_render_abs (n : ℕ) :
    parseUnsigned
      (if n % 1000 = 0 then natToChars (n / 1000)
       else natToChars (n / 1000) ++ '.' :: fracChars (n % 1000)) = some ((n : ℚ) / 1000) := by
  by_cases h1000 : n % 1000 = 0
  · rw [if_pos h1000, parseUnsigned_natToChars]
    congr 1
    have key : n / 1000 * 1000 = n := by omega
    rw [eq_div_iff (by norm_num)]
    exact_mod_cast key
  · rw [if_neg h1000, parseUnsigned_render _ _ (by omega)]
    congr 1
    have key : n / 1000 * 1000 + n % 1000 = n := by omega
    field_simp
    exact_mod_cast key

/-- Parsing inverts `renderThousandths` everywhere. -/
theorem parse_render (m : ℤ) : parseDecimal (renderThousandths m) = some ((m : ℚ) / 1000) := by
  have habs : ∀ l, (if m.natAbs % 1000 = 0 then natToChars (m.natAbs / 1000)
      else natToChars (m.natAbs / 1000) ++ '.' :: fracChars (m.natAbs % 1000)) = l →
      l ≠ [] ∧ ∀ c ∈ l, c ≠ '-' := by
    intro l hl
    subst hl
    by_cases h1000 : m.natAbs % 1000 = 0
    · rw [if_pos h1000]
      refine ⟨natToChars_ne_nil _, ?_⟩
      intro c hc
      obtain ⟨d, hd, rfl⟩ := natToChars_digits _ c hc
      exact digitChar_ne_dash d hd
    · rw [if_neg h1000]
      refine ⟨by simp [natToChars_ne_nil], ?_⟩
      intro c hc
      rcases List.mem_append.mp hc with h | h
      · obtain ⟨d, hd, rfl⟩ := natToChars_digits _ c h
        exact digitChar_ne_dash d hd
      · rcases List.mem_cons.mp h with h | h
        · subst h; decide
        · obtain ⟨d, hd, rfl⟩ := fracChars_digits _ (by omega) c h
          exact digitChar_ne_dash d hd
  have hcore : renderThousandths m =
      ⟨(if m < 0 then ['-'] else []) ++
        (if m.natAbs % 1000 = 0 then natToChars (m.natAbs / 1000)
         else natToChars (m.natAbs / 1000) ++ '.' :: fracChars (m.natAbs % 1000))⟩ := by
    rw [renderThousandths]
    by_cases h1000 : m.natAbs % 1000 = 0
    · rw [if_pos h1000, if_pos h1000]
    · rw [if_neg h1000, if_neg h1000]
      congr 1
      rw [List.append_assoc]
  rw [hcore]
  obtain ⟨hne, hdash⟩ := habs _ rfl
  by_cases hneg : m < 0
  · rw [if_pos hneg, List.singleton_append, parseDecimal_dash, parseUnsigned_render_abs]
    have hcast : ((m.natAbs : ℚ)) = -(m : ℚ) := by
      rw [Int.cast_natAbs]
      exact_mod_cast abs_of_neg hneg
    simp [hcast, neg_div]
  · rw [if_neg hneg, List.nil_append, parseDecimal_no_dash _ hne hdash,
      parseUnsigned_render_abs]
    have hcast : ((m.natAbs : ℚ)) = (m : ℚ) := by
      rw [Int.cast_natAbs]
      exact_mod_cast abs_of_nonneg (not_lt.mp hneg)
    rw [hcast]

/-- Evaluation helper: the label of `q` is the rendering of its thousandths. -/
theorem label_eval (q : ℚ) (m : ℤ) (h : ⌊q * 1000 + 1/2⌋ = m) :
    distanceToLabel q = renderThousandths m := by
  rw [distanceToLabel, h]

/-- C7: the distance-label canonicalizer is idempotent: for every rational x,
converting label(x) back to a number and labeling it again yields the same
string as label(x); concretely label(62.5) = "62.5", label(250) = "250", and
label(62.50001) = "62.5". -/
theorem distanceToLabel_idempotent :
    (∀ x : ℚ, ∃ y : ℚ, parseDecimal (distanceToLabel x) = some y ∧
      distanceToLabel y = distanceToLabel x) ∧
    distanceToLabel 62.5 = "62.5" ∧ distanceToLabel 250 = "250" ∧
    distanceToLabel 62.50001 = "62.5" := by
  refine ⟨?_, ?_, ?_, ?_⟩
  · intro x
    refine ⟨(⌊x * 1000 + 1/2⌋ : ℚ) / 1000, ?_, ?_⟩
    · rw [distanceToLabel, parse_render]
    · rw [distanceToLabel, distanceToLabel, floor_thousandths]
  · rw [label_eval 62.5 62500 (by norm_num)]
    decide
  · rw [label_eval 250 250000 (by norm_num)]
    decide
  · rw [label_eval 62.50001 62500 (by norm_num)]
    decide

/-! ### Set and filter membership -/

/-- Membership after one JS `Set.add`. -/
theorem mem_setAdd (acc : List ℚ) (d x : ℚ) : x ∈ setAdd acc d ↔ x ∈ acc ∨ x = d := by
  rw [setAdd]
  by_cases h : d ∈ acc
  · rw [if_pos h]
    constructor
    · exact Or.inl
    · rintro (hx | rfl)
      · exact hx
      · exact h
  · rw [if_neg h]
    simp

/-- Membership through a fold of `setAdd` over images. -/
theorem mem_foldl_setAdd (g : ℚ → ℚ) (l : List ℚ) :
    ∀ acc x, x ∈ l.foldl (fun a d => setAdd a (g d)) acc ↔ x ∈ acc ∨ ∃ d ∈ l, x = g d := by
  induction l with
  | nil => intro acc x; simp
  | cons d rest ih =>
    intro acc x
    rw [List.foldl_cons, ih, mem_setAdd]
    constructor
    · rintro ((hx | hx) | ⟨e, he, rfl⟩)
      · exact Or.inl hx
      · exact Or.inr ⟨d, List.mem_cons_self d rest, hx⟩
      · exact Or.inr ⟨e, List.mem_cons_of_mem _ he, rfl⟩
    · rintro (hx | ⟨e, he, rfl⟩)
      · exact Or.inl (Or.inl hx)
      · rcases List.mem_cons.mp he with rfl | he
        · exact Or.inl (Or.inr rfl)
        · exact Or.inr ⟨e, he, rfl⟩

/-- Membership through a fold of plain `setAdd`. -/
theorem mem_foldl_setAdd_id (l : List ℚ) :
    ∀ acc x, x ∈ l.foldl setAdd acc ↔ x ∈ acc ∨ x ∈ l := by
  induction l with
  | nil => intro acc x; simp
  | cons d rest ih =>
    intro acc x
    rw [List.foldl_cons, ih, mem_setAdd, List.mem_cons]
    tauto

/-- `setOfList` preserves membership. -/
theorem mem_setOfList (l : List ℚ) (x : ℚ) : x ∈ setOfList l ↔ x ∈ l := by
  rw [setOfList, mem_foldl_setAdd_id]
  simp

/-- `filterPos` keeps exactly the positive members. -/
theorem mem_filterPos (l : List ℚ) (x : ℚ) : x ∈ filterPos l ↔ x ∈ l ∧ 0 < x := by
  induction l with
  | nil => simp [filterPos]
  | cons d rest ih =>
    rw [filterPos]
    by_cases h : 0 < d
    · rw [if_pos h]
      simp only [List.mem_cons, ih]
      constructor
      · rintro (rfl | ⟨hx, hpos⟩)
        · exact ⟨Or.inl rfl, h⟩
        · exact ⟨Or.inr hx, hpos⟩
      · rintro ⟨rfl | hx, hpos⟩
        · exact Or.inl rfl
        · exact Or.inr ⟨hx, hpos⟩
    · rw [if_neg h]
      rw [ih]
      simp only [List.mem_cons]
      constructor
      · rintro ⟨hx, hpos⟩
        exact ⟨Or.inr hx, hpos⟩
      · rintro ⟨rfl | hx, hpos⟩
        · exact absurd hpos h
        · exact ⟨hx, hpos⟩

/-- Every member of `sortedUniqueDistances` is a positive rounded distance. -/
theorem mem_sortedUniqueDistances (distances : List ℚ) (x : ℚ)
    (hx : x ∈ sortedUniqueDistances distances) :
    0 < x ∧ ∃ d ∈ distances, x = roundTo d 3 := by
  rw [sortedUniqueDistances] at hx
  rw [(List.perm_insertionSort _ _).mem_iff, mem_filterPos, mem_setOfList] at hx
  obtain ⟨hmem, hpos⟩ := hx
  obtain ⟨d, hd, rfl⟩ := List.mem_map.mp hmem
  exact ⟨hpos, d, hd, rfl⟩

/-- Every checkpoint distance is an integer number of thousandths. -/
theorem checkpoints_thousandths (distances : List ℚ) (marks : Marks) (startAbs : ℚ) :
    ∀ c ∈ checkpoints distances marks startAbs, ∃ m : ℤ, c.distance = (m : ℚ) / 1000 := by
  intro c hc
  rw [checkpoints] at hc
  rcases List.mem_cons.mp hc with rfl | h
  · exact ⟨0, by norm_num⟩
  · obtain ⟨d, hd, rfl⟩ := List.mem_map.mp h
    obtain ⟨hpos, d0, hd0, hdr⟩ := mem_sortedUniqueDistances distances d hd
    obtain ⟨m, hm⟩ := exists_int_roundTo d0
    exact ⟨m, by rw [hdr, hm]⟩

/-! ### The metrics walk -/

/-- The array-tail walk of metrics.ts equals the explicit previous-row fold:
the mutable `rows.at(-1)` state is exactly the last emitted row. -/
theorem metricsLoop_eq_walkPrev (ps : List Checkpoint) :
    ∀ rows, metricsLoop rows ps = rows ++ walkPrev rows.getLast? ps := by
  induction ps with
  | nil =>
    intro rows
    simp [metricsLoop, walkPrev]
  | cons p ps ih =>
    cases ps with
    | nil =>
      intro rows
      simp [metricsLoop, walkPrev]
    | cons q rest =>
      intro rows
      rw [metricsLoop, walkPrev]
      cases hp : p.time with
      | none =>
        cases hq : q.time with
        | none => exact ih rows
        | some tn => exact ih rows
      | some tc =>
        cases hq : q.time with
        | none => exact ih rows
        | some tn =>
          by_cases hg : tn - tc ≤ 0 ∨ q.distance - p.distance ≤ 0
          · simp only [if_pos hg]
            exact ih rows
          · simp only [if_neg hg]
            rw [ih]
            rw [List.getLast?_concat]
            simp [List.append_assoc]

/-- C2 counterpart, amended: in `buildMetrics` the acceleration is null
exactly for the first emitted row; every later row computes its acceleration
from the most recently emitted row, even when the checkpoint pair immediately
preceding it was skipped.  This is the equivalence with the explicit
previous-emitted-row fold `buildMetricsPrev`, whose acceleration is
`prev.map ...` of the threaded last emitted row. -/
theorem buildMetrics_eq_prev (distances : List ℚ) (marks : Marks) :
    buildMetrics distances marks = buildMetricsPrev distances marks := by
  rw [buildMetrics, buildMetricsPrev]
  cases hs : marks "Start time" with
  | none => rfl
  | some t =>
    cases t with
    | none => rfl
    | some startAbs =>
      have h := metricsLoop_eq_walkPrev (checkpoints distances marks startAbs) []
      simpa using h

/-- Every row of `walkPrev` arises from one consecutive checkpoint pair with
both times present and positive unrounded deltas. -/
theorem walkPrev_adjacent (ps : List Checkpoint) :
    ∀ prev r, r ∈ walkPrev prev ps →
      ∃ i p q, ps[i]? = some p ∧ ps[i + 1]? = some q ∧
        ∃ tc tn, p.time = some tc ∧ q.time = some tn ∧
          0 < tn - tc ∧ 0 < q.distance - p.distance ∧
          r.fromDist = roundTo p.distance 3 ∧ r.toDist = roundTo q.distance 3 ∧
          r.deltaT = roundTo (tn - tc) 3 ∧
          r.deltaD = roundTo (q.distance - p.distance) 3 ∧
          r.velocityKmh = roundTo ((q.distance - p.distance) / (tn - tc) * 3.6) 3 := by
  induction ps with
  | nil =>
    intro prev r hr
    simp [walkPrev] at hr
  | cons p ps ih =>
    cases ps with
    | nil =>
      intro prev r hr
      simp [walkPrev] at hr
    | cons q rest =>
      intro prev r hr
      rw [walkPrev] at hr
      have lift : ∀ pr r, r ∈ walkPrev pr (q :: rest) →
          (∃ i p' q', (p :: q :: rest)[i]? = some p' ∧ (p :: q :: rest)[i + 1]? = some q' ∧
            ∃ tc tn, p'.time = some tc ∧ q'.time = some tn ∧
              0 < tn - tc ∧ 0 < q'.distance - p'.distance ∧
              r.fromDist = roundTo p'.distance 3 ∧ r.toDist = roundTo q'.distance 3 ∧
              r.deltaT = roundTo (tn - tc) 3 ∧
              r.deltaD = roundTo (q'.distance - p'.distance) 3 ∧
              r.velocityKmh = roundTo ((q'.distance - p'.distance) / (tn - tc) * 3.6) 3) := by
        intro pr r hr
        obtain ⟨i, p', q', h1, h2, rest'⟩ := ih pr r hr
        exact ⟨i + 1, p', q', by simpa using h1, by simpa using h2, rest'⟩
      cases hp : p.time with
      | none =>
        cases hq : q.time with
        | none =>
          simp only [hp, hq] at hr
          exact lift prev r hr
        | some tn =>
          simp only [hp, hq] at hr
          exact lift prev r hr
      | some tc =>
        cases hq : q.time with
        | none =>
          simp only [hp, hq] at hr
          exact lift prev r hr
        | some tn =>
          simp only [hp, hq] at hr
          by_cases hg : tn - tc ≤ 0 ∨ q.distance - p.distance ≤ 0
          · rw [if_pos hg] at hr
            exact lift prev r hr
          · rw [if_neg hg] at hr
            push_neg at hg
            rcases List.mem_cons.mp hr with rfl | hr
            · exact ⟨0, p, q, by simp, by simp, tc, tn, hp, hq, by linarith [hg.1],
                by linarith [hg.2], rfl, rfl, rfl, rfl, rfl⟩
            · exact lift _ r hr

/-- Optional indexing implies membership. -/
theorem mem_of_getElem_opt {α : Type} {l : List α} {i : ℕ} {a : α}
    (h : l[i]? = some a) : a ∈ l := by
  obtain ⟨hlt, rfl⟩ := List.getElem?_eq_some_iff.mp h
  exact List.getElem_mem hlt

/-- Unfolding membership in `buildMetrics` through the start-mark branch. -/
theorem mem_buildMetrics (ds : List ℚ) (ms : Marks) (r : MetricsRow)
    (hr : r ∈ buildMetrics ds ms) :
    ∃ startAbs, ms "Start time" = some (some startAbs) ∧
      r ∈ walkPrev none (checkpoints ds ms startAbs) := by
  rw [buildMetrics_eq_prev, buildMetricsPrev] at hr
  revert hr
  cases hs : ms "Start time" with
  | none =>
    intro hr
    exact absurd hr (List.not_mem_nil r)
  | some t =>
    cases t with
    | none =>
      intro hr
      exact absurd hr (List.not_mem_nil r)
    | some startAbs =>
      intro hr
      exact ⟨startAbs, rfl, hr⟩

/-- C4 amended: every emitted row comes from a checkpoint pair whose
unrounded time and distance deltas are strictly positive (non-positive deltas
are skipped); the stored deltaD is strictly positive, while the stored deltaT
is the 3-decimal rounding of a strictly positive delta, hence nonnegative but
possibly 0 when the delta is below 0.0005.  The velocity is the rounded ratio
of the unrounded deltas, hence finite. -/
theorem buildMetrics_deltas : ∀ (distances : List ℚ) (marks : Marks) (r : MetricsRow),
    r ∈ buildMetrics distances marks →
    0 < r.deltaD ∧ 0 ≤ r.deltaT ∧
    ∃ dt dd : ℚ, 0 < dt ∧ 0 < dd ∧ r.deltaT = roundTo dt 3 ∧ r.deltaD = roundTo dd 3 ∧
      r.velocityKmh = roundTo (dd / dt * 3.6) 3 := by
  intro ds ms r hr
  obtain ⟨s0, hs, hmem⟩ := mem_buildMetrics ds ms r hr
  obtain ⟨i, p, q, hip, hiq, tc, tn, hpt, hqt, hdt, hdd, hfrom, hto, hdtEq, hddEq, hvEq⟩ :=
    walkPrev_adjacent _ none r hmem
  obtain ⟨m₁, hm₁⟩ := checkpoints_thousandths ds ms s0 p (mem_of_getElem_opt hip)
  obtain ⟨m₂, hm₂⟩ := checkpoints_thousandths ds ms s0 q (mem_of_getElem_opt hiq)
  have hdiff : q.distance - p.distance = ((m₂ - m₁ : ℤ) : ℚ) / 1000 := by
    rw [hm₁, hm₂]
    push_cast
    ring
  have hdval : r.deltaD = ((m₂ - m₁ : ℤ) : ℚ) / 1000 := by
    rw [hddEq, hdiff, roundTo_thousandths]
  refine ⟨?_, ?_, tn - tc, q.distance - p.distance, hdt, hdd, hdtEq, hddEq, hvEq⟩
  · rw [hdval, ← hdiff]
    exact hdd
  · rw [hdtEq]
    exact roundTo_nonneg _ (le_of_lt hdt)

/-- C8: every row of `buildMetrics` spans exactly one consecutive pair of the
checkpoint list (Start at 0 followed by the cleaned distances): its bounds are
the two adjacent checkpoint distances and both checkpoints carry a non-null
mark, so a null checkpoint contributes to no row and skipping never merges two
segments. -/
theorem buildMetrics_adjacent_pairs : ∀ (distances : List ℚ) (marks : Marks) (r : MetricsRow),
    r ∈ buildMetrics distances marks →
    ∃ startAbs, marks "Start time" = some (some startAbs) ∧
      ∃ i p q, (checkpoints distances marks startAbs)[i]? = some p ∧
        (checkpoints distances marks startAbs)[i + 1]? = some q ∧
        p.time.isSome ∧ q.time.isSome ∧
        r.fromDist = roundTo p.distance 3 ∧ r.toDist = roundTo q.distance 3 := by
  intro ds ms r hr
  obtain ⟨s0, hs, hmem⟩ := mem_buildMetrics ds ms r hr
  obtain ⟨i, p, q, hip, hiq, tc, tn, hpt, hqt, _, _, hfrom, hto, _⟩ :=
    walkPrev_adjacent _ none r hmem
  exact ⟨s0, hs, i, p, q, hip, hiq, by simp [hpt], by simp [hqt], hfrom, hto⟩

/-- C10: a "Start time" mark holding any number (0 or negative included)
counts as present: `getStartTime` returns it and `buildMetrics` and
`buildDistanceSeries` run their main computation instead of the no-start
empty branch. -/
theorem startTime_zero_counts : ∀ (s : Session) (t : ℚ) (ds : List ℚ),
    s.marks_abs "Start time" = some (some t) →
    getStartTime s.marks_abs = some t ∧
    buildMetrics ds s.marks_abs = metricsLoop [] (checkpoints ds s.marks_abs t) ∧
    buildDistanceSeries s = distanceSeriesEntries s t := by
  intro s t ds h
  have h1 : getStartTime s.marks_abs = some t := by
    rw [getStartTime, h]
    rfl
  refine ⟨h1, ?_, ?_⟩
  · rw [buildMetrics, h]
  · rw [buildDistanceSeries, h1]

/-- `buildMetrics` returns the empty list when no start mark is present. -/
theorem buildMetrics_no_start (ds : List ℚ) (ms : Marks) (h : getStartTime ms = none) :
    buildMetrics ds ms = [] := by
  rw [getStartTime] at h
  rw [buildMetrics]
  cases hs : ms "Start time" with
  | none => rfl
  | some t =>
    cases t with
    | none => rfl
    | some v =>
      rw [hs] at h
      simp at h

/-- Record lookup over per-session cells with pairwise distinct keys. -/
theorem recordGet_values (sessions : List Session) (s : Session) (f : Session → Option ℚ) :
    s ∈ sessions → (sessions.map Session.videoKey).Nodup →
    recordGet (sessions.map (fun x => (x.videoKey, f x))) s.videoKey = some (f s) := by
  induction sessions with
  | nil =>
    intro h _
    cases h
  | cons t rest ih =>
    intro hmem hnodup
    rw [List.map_cons] at hnodup
    obtain ⟨hhead, htail⟩ := List.nodup_cons.mp hnodup
    rcases List.mem_cons.mp hmem with rfl | hmem
    · rw [List.map_cons, recordGet, if_pos rfl]
    · have hne : t.videoKey ≠ s.videoKey := by
        intro hcon
        exact hhead (hcon ▸ List.mem_map.mpr ⟨s, hmem, rfl⟩)
      rw [List.map_cons, recordGet, if_neg hne]
      exact ih hmem htail

/-- C6: a session with no "Start time" entry (null or absent) yields the
empty metrics list, the empty distance series, and a null value in every row
of `buildTotalTimeRows` even when distance marks are present. -/
theorem no_start_all_null : ∀ (sessions : List Session) (s : Session), s ∈ sessions →
    (sessions.map Session.videoKey).Nodup → getStartTime s.marks_abs = none →
    buildMetrics s.distances s.marks_abs = [] ∧ buildDistanceSeries s = [] ∧
    ∀ row ∈ buildTotalTimeRows sessions, recordGet row.values s.videoKey = some none := by
  intro sessions s hmem hnodup hstart
  refine ⟨buildMetrics_no_start _ _ hstart, ?_, ?_⟩
  · rw [buildDistanceSeries, hstart]
  · intro row hrow
    rw [buildTotalTimeRows] at hrow
    obtain ⟨d, hd, rfl⟩ := List.mem_map.mp hrow
    show recordGet (sessions.map (fun x => (x.videoKey, totalValue x d))) s.videoKey = some none
    rw [recordGet_values sessions s (fun x => totalValue x d) hmem hnodup]
    have hv : totalValue s d = none := by
      rw [totalValue, hstart]
    rw [hv]

/-- C9: `annotateDiffs` returns one output row per input row, in order, with
the distance, label and values fields unchanged; the only addition is the
deltas mapping, whose key list equals the values key list. -/
theorem annotateDiffs_frame : ∀ (rows : List TableRow) (referenceKey : Option String),
    (annotateDiffs rows referenceKey).map (fun r => (r.distance, r.label, r.values)) =
      rows.map (fun r => (r.distance, r.label, r.values)) ∧
    ∀ r ∈ annotateDiffs rows referenceKey,
      r.deltas.map Prod.fst = r.values.map Prod.fst := by
  intro rows ref
  constructor
  · rw [annotateDiffs, List.map_map]
    rfl
  · intro r hr
    rw [annotateDiffs] at hr
    obtain ⟨row, hrow, rfl⟩ := List.mem_map.mp hr
    show (row.values.map _).map Prod.fst = row.values.map Prod.fst
    rw [List.map_map]
    rfl

/-- Membership in the collected row-distance set of `buildTotalTimeRows`. -/
theorem mem_collectTotalDistances (sessions : List Session) (x : ℚ) :
    x ∈ collectTotalDistances sessions ↔
      x = 0 ∨ ∃ s ∈ sessions, (∃ d ∈ s.distances, x = roundTo d 3) ∨
        (x = 15 ∧ (s.marks_abs "15").isSome) := by
  have hstep : ∀ (acc : List ℚ) (s : Session) (x : ℚ),
      x ∈ collectStep acc s ↔ x ∈ acc ∨ (∃ d ∈ s.distances, x = roundTo d 3) ∨
        (x = 15 ∧ (s.marks_abs "15").isSome) := by
    intro acc s x
    rw [collectStep]
    by_cases h15 : (s.marks_abs "15").isSome
    · rw [if_pos h15, mem_setAdd, mem_foldl_setAdd]
      constructor
      · rintro ((hx | hd) | h15x)
        · exact Or.inl hx
        · exact Or.inr (Or.inl hd)
        · exact Or.inr (Or.inr ⟨h15x, h15⟩)
      · rintro (hx | hd | ⟨h15x, _⟩)
        · exact Or.inl (Or.inl hx)
        · exact Or.inl (Or.inr hd)
        · exact Or.inr h15x
    · rw [if_neg h15, mem_foldl_setAdd]
      constructor
      · rintro (hx | hd)
        · exact Or.inl hx
        · exact Or.inr (Or.inl hd)
      · rintro (hx | hd | ⟨_, hsome⟩)
        · exact Or.inl hx
        · exact Or.inr hd
        · exact absurd hsome h15
  have main : ∀ (ss : List Session) (acc : List ℚ) (x : ℚ),
      x ∈ ss.foldl collectStep acc ↔ x ∈ acc ∨
        ∃ s ∈ ss, (∃ d ∈ s.distances, x = roundTo d 3) ∨
          (x = 15 ∧ (s.marks_abs "15").isSome) := by
    intro ss
    induction ss with
    | nil => intro acc x; simp
    | cons s rest ih =>
      intro acc x
      rw [List.foldl_cons, ih, hstep]
      constructor
      · rintro ((hx | hcontrib) | ⟨s', hs', h'⟩)
        · exact Or.inl hx
        · exact Or.inr ⟨s, List.mem_cons_self s rest, hcontrib⟩
        · exact Or.inr ⟨s', List.mem_cons_of_mem _ hs', h'⟩
      · rintro (hx | ⟨s', hs', h'⟩)
        · exact Or.inl (Or.inl hx)
        · rcases List.mem_cons.mp hs' with rfl | hs'
          · exact Or.inl (Or.inr h')
          · exact Or.inr ⟨s', hs', h'⟩
  rw [collectTotalDistances, main]
  simp

/-- C5 counterpart, amended: when no session has 15 among its canonicalized
distances, `buildTotalTimeRows` includes a row at distance 15 if and only if
some session has the key "15" present in its mark map — even mapped to null;
a truly absent key contributes nothing. -/
theorem fifteen_row_iff : ∀ (sessions : List Session),
    (∀ s ∈ sessions, ∀ d ∈ s.distances, roundTo d 3 ≠ 15) →
    ((∃ row ∈ buildTotalTimeRows sessions, row.distance = 15) ↔
      ∃ s ∈ sessions, (s.marks_abs "15").isSome) := by
  intro sessions hno
  have h1 : (∃ row ∈ buildTotalTimeRows sessions, row.distance = 15) ↔
      (15 : ℚ) ∈ totalRowDistances sessions := by
    rw [buildTotalTimeRows]
    constructor
    · rintro ⟨row, hrow, hd⟩
      obtain ⟨d, hd', rfl⟩ := List.mem_map.mp hrow
      exact hd ▸ hd'
    · intro h15
      exact ⟨_, List.mem_map.mpr ⟨15, h15, rfl⟩, rfl⟩
  rw [h1, totalRowDistances, (List.perm_insertionSort _ _).mem_iff,
    mem_collectTotalDistances]
  constructor
  · rintro (h0 | ⟨s, hs, hcase⟩)
    · norm_num at h0
    · rcases hcase with ⟨d, hd, h15⟩ | ⟨_, hsome⟩
      · exact absurd h15.symm (hno s hs d hd)
      · exact ⟨s, hs, hsome⟩
  · rintro ⟨s, hs, hsome⟩
    exact Or.inr ⟨s, hs, Or.inr ⟨rfl, hsome⟩⟩

/-! ### Split distances -/

/-- Each split step is a positive integer number of thousandths. -/
theorem splitStep_eq (c : SplitChoice) : ∃ m : ℤ, 0 < m ∧ splitStep c = (m : ℚ) / 1000 := by
  cases c with
  | quarter => exact ⟨62500, by norm_num, by norm_num [splitStep, QUARTER_M, LAP_M]⟩
  | half => exact ⟨125000, by norm_num, by norm_num [splitStep, HALF_M, LAP_M]⟩
  | full => exact ⟨250000, by norm_num, by norm_num [splitStep, LAP_M]⟩

/-- Rounding to 3 decimals fixes every multiple of a split step. -/
theorem roundTo_mul_splitStep (n : ℕ) (c : SplitChoice) :
    roundTo ((n : ℚ) * splitStep c) 3 = (n : ℚ) * splitStep c := by
  obtain ⟨m, hm0, hmstep⟩ := splitStep_eq c
  rw [hmstep]
  have h : (n : ℚ) * ((m : ℚ) / 1000) = (((n : ℤ) * m : ℤ) : ℚ) / 1000 := by
    push_cast
    ring
  rw [h, roundTo_thousandths]

/-- Membership after the final-checkpoint append. -/
theorem mem_withEndDistance (T : ℚ) (l : List ℚ) (x : ℚ) (hx : x ∈ withEndDistance T l) :
    x ∈ l ∨ x = roundTo T 3 := by
  rw [withEndDistance] at hx
  revert hx
  cases hlast : l.getLast? with
  | none =>
    intro hx
    rcases List.mem_cons.mp hx with rfl | hx
    · exact Or.inr rfl
    · cases hx
  | some last =>
    intro hx
    have hx' : x ∈ (if last < T - 1/1000000 then l ++ [roundTo T 3] else l) := hx
    by_cases hshort : last < T - 1/1000000
    · rw [if_pos hshort] at hx'
      rcases List.mem_append.mp hx' with h | h
      · exact Or.inl h
      · rcases List.mem_cons.mp h with rfl | h
        · exact Or.inr rfl
        · cases h
    · rw [if_neg hshort] at hx'
      exact Or.inl hx'

/-- Every element of `buildSplitDistances` is a step multiple within the
tolerance of `totalMeters`, or the rounded `totalMeters` itself. -/
theorem mem_buildSplitDistances (T : ℚ) (c : SplitChoice) (x : ℚ)
    (hx : x ∈ buildSplitDistances T c) :
    (∃ n : ℕ, x = (n : ℚ) * splitStep c ∧ (n : ℚ) * splitStep c ≤ T + 1/1000000) ∨
      x = roundTo T 3 := by
  rw [buildSplitDistances] at hx
  by_cases hguard : splitStep c ≤ 0 ∨ T ≤ 0
  · rw [if_pos hguard] at hx
    cases hx
  · rw [if_neg hguard] at hx
    push_neg at hguard
    obtain ⟨hstep, hT⟩ := hguard
    rw [(List.perm_insertionSort _ _).mem_iff, mem_setOfList] at hx
    rcases mem_withEndDistance _ _ _ hx with h | h
    · rw [splitMultiples] at h
      obtain ⟨i, hi, rfl⟩ := List.mem_map.mp h
      have hirange := List.mem_range.mp hi
      have hfloor : ((i : ℤ) + 1) ≤ ⌊(T + 1/1000000) / splitStep c⌋ := by
        have := Int.lt_toNat.mp hirange
        omega
      have hbound : ((i : ℚ) + 1) * splitStep c ≤ T + 1/1000000 := by
        have h2 : (((i : ℤ) + 1 : ℤ) : ℚ) ≤ (T + 1/1000000) / splitStep c :=
          Int.le_floor.mp hfloor
        rw [le_div_iff₀ hstep] at h2
        push_cast at h2
        linarith
      refine Or.inl ⟨i + 1, ?_, ?_⟩
      · exact roundTo_mul_splitStep (i + 1) c
      · push_cast
        linarith
    · exact Or.inr h

/-- C3 counterpart, amended: the last element of a non-empty
`buildSplitDistances` result is within 1e-6 of `totalMeters`, or exactly a
step multiple at most `totalMeters`, or equal to `totalMeters` rounded to 3
decimals (the appended final checkpoint, which can differ from `totalMeters`
by up to 5e-4). -/
theorem splitDistances_last : ∀ (T : ℚ) (c : SplitChoice) (x : ℚ),
    (buildSplitDistances T c).getLast? = some x →
    |x - T| ≤ 1/1000000 ∨ (∃ n : ℕ, x = (n : ℚ) * splitStep c ∧ x ≤ T) ∨
      x = roundTo T 3 := by
  intro T c x h
  have hx := List.mem_of_getLast?_eq_some h
  rcases mem_buildSplitDistances T c x hx with ⟨n, rfl, hle⟩ | hx'
  · by_cases hT : (n : ℚ) * splitStep c ≤ T
    · exact Or.inr (Or.inl ⟨n, rfl, hT⟩)
    · push_neg at hT
      refine Or.inl ?_
      rw [abs_le]
      constructor <;> linarith
  · exact Or.inr (Or.inr hx')

/-! ### Concrete label values -/

/-- The label of 62.5. -/
theorem label_62_5 : distanceToLabel 62.5 = "62.5" := by
  rw [label_eval 62.5 62500 (by norm_num)]
  decide

/-- The label of 62.5 in fraction form. -/
theorem label_62_5f : distanceToLabel (125/2) = "62.5" := by
  rw [label_eval (125/2) 62500 (by norm_num)]
  decide

/-- The label of 187.5 in fraction form. -/
theorem label_187_5f : distanceToLabel (375/2) = "187.5" := by
  rw [label_eval (375/2) 187500 (by norm_num)]
  decide

/-- The label of 125. -/
theorem label_125 : distanceToLabel 125 = "125" := by
  rw [label_eval 125 125000 (by norm_num)]
  decide

/-- The label of 187.5. -/
theorem label_187_5 : distanceToLabel 187.5 = "187.5" := by
  rw [label_eval 187.5 187500 (by norm_num)]
  decide

/-- The label of 250. -/
theorem label_250 : distanceToLabel 250 = "250" := by
  rw [label_eval 250 250000 (by norm_num)]
  decide

/-- The label of 15. -/
theorem label_15 : distanceToLabel 15 = "15" := by
  rw [label_eval 15 15000 (by norm_num)]
  decide

/-- The label of 10. -/
theorem label_10 : distanceToLabel 10 = "10" := by
  rw [label_eval 10 10000 (by norm_num)]
  decide

/-- The label of 20. -/
theorem label_20 : distanceToLabel 20 = "20" := by
  rw [label_eval 20 20000 (by norm_num)]
  decide

/-- The label of 30. -/
theorem label_30 : distanceToLabel 30 = "30" := by
  rw [label_eval 30 30000 (by norm_num)]
  decide

/-- The label of 1. -/
theorem label_1 : distanceToLabel 1 = "1" := by
  rw [label_eval 1 1000 (by norm_num)]
  decide

/-- The label of 50. -/
theorem label_50 : distanceToLabel 50 = "50" := by
  rw [label_eval 50 50000 (by norm_num)]
  decide

/-- The label of 100. -/
theorem label_100 : distanceToLabel 100 = "100" := by
  rw [label_eval 100 100000 (by norm_num)]
  decide

/-- C5 counterexample: a single session whose mark map holds "15" mapped to
null (recorded by the data model reading: not yet recorded) still makes the
15 row appear, because the source tests `!== undefined`. -/
theorem fifteen_row_null_counterexample :
    (buildTotalTimeRows [session15]).map TableRow.distance = [0, 15] ∧
    ∀ t : ℚ, session15.marks_abs "15" ≠ some (some t) := by
  constructor
  · norm_num [buildTotalTimeRows, totalRowDistances, collectTotalDistances, collectStep,
      session15, setAdd, List.insertionSort, List.orderedInsert, List.map_map]
  · intro t
    simp [session15]

/-- Evaluation of the scenario-A total-time table. -/
theorem totalRows_AB : buildTotalTimeRows [sessionA, sessionB] =
    [{ distance := 0, label := "Start", values := [("A", some 0), ("B", some 0)] },
     { distance := 62.5, label := "62.5", values := [("A", some 3), ("B", some 3.5)] },
     { distance := 125, label := "125", values := [("A", some 6.5), ("B", some 7)] },
     { distance := 187.5, label := "187.5", values := [("A", some 10), ("B", some 10.8)] },
     { distance := 250, label := "250", values := [("A", some 14.2), ("B", some 15)] }] := by
  norm_num +decide [buildTotalTimeRows, totalRowDistances, collectTotalDistances, collectStep,
    sessionA, sessionB, marksA, marksB, setAdd, List.insertionSort, List.orderedInsert,
    totalValue, getStartTime, roundTo, label_62_5, label_125, label_187_5, label_250,
    label_62_5f, label_187_5f]

/-- Small-literal `Int.toNat` evaluations for the split-grid sizes. -/
theorem intToNat_one : (1 : ℤ).toNat = 1 := by decide

/-- Small-literal `Int.toNat` evaluation for the quarter grid of a 250 m lap. -/
theorem intToNat_four : (4 : ℤ).toNat = 4 := by decide

/-- Evaluation of the first scenario-A quarter-split row. -/
theorem splitRows_AB_head :
    (buildSplitTimeRows [sessionA, sessionB] SplitChoice.quarter).head? =
      some { distance := 62.5, label := "62.5", values := [("A", some 3), ("B", some 3.5)] } := by
  norm_num +decide [buildSplitTimeRows, maxDistance, buildSplitDistances, splitStep, QUARTER_M,
    LAP_M, splitMultiples, withEndDistance, setOfList, setAdd, List.insertionSort,
    List.orderedInsert, List.range_succ, List.range_zero, intToNat_four, splitRowsAux,
    splitValue,
    getStartTime, sessionA, sessionB, marksA, marksB, roundTo, label_62_5, label_62_5f,
    label_125, label_187_5, label_187_5f, label_250, List.getLast?_singleton,
    List.getLast?_cons_cons]

/-- Evaluation of the annotated scenario-A table at its last row. -/
theorem annotate_AB :
    (annotateDiffs (buildTotalTimeRows [sessionA, sessionB]) (some "A")).getLast? =
      some { distance := 250, label := "250", values := [("A", some 14.2), ("B", some 15)],
             deltas := [("A", none), ("B", some 0.8)] } := by
  rw [totalRows_AB]
  norm_num +decide [annotateDiffs, recordGet, roundTo]

/-- C1: end-to-end scenario A over a 250 m track with quarter splits: the
total-time row at distance 250 reports A=14.2 and B=15.0; the first
split-time row (segment 0 to 62.5) reports A=3.0 and B=3.5; annotating the
total rows with reference A gives delta 0.8 for B and null for A at
distance 250. -/
theorem scenario_A :
    (buildTotalTimeRows [sessionA, sessionB]).getLast? =
      some { distance := 250, label := "250", values := [("A", some 14.2), ("B", some 15)] } ∧
    (buildSplitTimeRows [sessionA, sessionB] SplitChoice.quarter).head? =
      some { distance := 62.5, label := "62.5", values := [("A", some 3), ("B", some 3.5)] } ∧
    (annotateDiffs (buildTotalTimeRows [sessionA, sessionB]) (some "A")).getLast? =
      some { distance := 250, label := "250", values := [("A", some 14.2), ("B", some 15)],
             deltas := [("A", none), ("B", some 0.8)] } := by
  refine ⟨?_, splitRows_AB_head, annotate_AB⟩
  rw [totalRows_AB]
  rfl

/-- C2 counterexample: with Start=0, 10m=1, 20m=0.5, 30m=3, the pair 10→20
has a negative time delta and is skipped (all four checkpoint marks are
present), yet the emitted row for 20→30 carries acceleration -2.4 computed
from the 0→10 row, where the claim requires null after a skipped
predecessor pair. -/
theorem acceleration_after_skip_counterexample :
    (buildMetrics [10, 20, 30] marksSkip).map MetricsRow.acceleration =
      [none, some (-2.4)] ∧
    (checkpoints [10, 20, 30] marksSkip 0).map Checkpoint.time =
      [some 0, some 1, some 0.5, some 3] := by
  constructor
  · norm_num +decide [buildMetrics, checkpoints, sortedUniqueDistances, filterPos, setOfList,
      setAdd, List.insertionSort, List.orderedInsert, metricsLoop, marksSkip, roundTo,
      label_10, label_20, label_30, List.getLast?_singleton, List.getLast?_cons_cons]
  · norm_num +decide [checkpoints, sortedUniqueDistances, filterPos, setOfList, setAdd,
      List.insertionSort, List.orderedInsert, marksSkip, roundTo, label_10, label_20,
      label_30]

/-- Evaluation of the single-segment effort whose time delta is 0.0001. -/
theorem metrics_tiny_eval : buildMetrics [1] marksTiny =
    [{ fromDist := 0, toDist := 1, deltaT := 0, deltaD := 1, velocityKmh := 36000,
       acceleration := none }] := by
  norm_num +decide [buildMetrics, checkpoints, sortedUniqueDistances, filterPos, setOfList,
    setAdd, List.insertionSort, List.orderedInsert, metricsLoop, marksTiny, roundTo, label_1]

/-- C4 counterexample: the pair 0→1 has positive time delta 0.0001, so a row
is emitted, but its stored deltaT field is the 3-decimal rounding 0, not a
strictly positive number. -/
theorem deltaT_rounds_to_zero_counterexample :
    (buildMetrics [1] marksTiny).map MetricsRow.deltaT = [0] ∧
    ¬ (∀ r ∈ buildMetrics [1] marksTiny, 0 < r.deltaT) := by
  rw [metrics_tiny_eval]
  constructor
  · norm_num
  · intro h
    have h1 := h _ (List.mem_singleton.mpr rfl)
    norm_num at h1

/-- Evaluation of the single-segment effort on `marksHundred`. -/
theorem metrics_hundred_eval : buildMetrics [100] marksHundred =
    [{ fromDist := 0, toDist := 100, deltaT := 10, deltaD := 100, velocityKmh := 36,
       acceleration := none }] := by
  norm_num +decide [buildMetrics, checkpoints, sortedUniqueDistances, filterPos, setOfList,
    setAdd, List.insertionSort, List.orderedInsert, metricsLoop, marksHundred, roundTo,
    label_100]

/-- C3 counterexample: for totalMeters 62.5006 with quarter granularity the
result is [62.5, 62.501]; the last element 62.501 is the rounded totalMeters,
which is neither within 1e-6 of totalMeters nor a step multiple at most
totalMeters. -/
theorem splitDistances_rounded_end_counterexample :
    (buildSplitDistances (312503/5000) SplitChoice.quarter).getLast? = some (62501/1000) ∧
    ¬ (|(62501/1000 : ℚ) - 312503/5000| ≤ 1/1000000 ∨
        ∃ n : ℕ, (62501/1000 : ℚ) = (n : ℚ) * splitStep SplitChoice.quarter ∧
          (62501/1000 : ℚ) ≤ 312503/5000) := by
  constructor
  · norm_num +decide [buildSplitDistances, splitStep, QUARTER_M, LAP_M, splitMultiples,
      withEndDistance, setOfList, setAdd, List.insertionSort, List.orderedInsert,
      List.range_succ, List.range_zero, intToNat_one, roundTo, List.getLast?_singleton,
      List.getLast?_cons_cons]
  · rintro (habs | ⟨n, hmult, hle⟩)
    · rw [show (62501/1000 : ℚ) - 312503/5000 = 1/2500 from by norm_num] at habs
      rw [abs_of_pos (by norm_num)] at habs
      norm_num at habs
    · norm_num at hle

/-! ### Witnesses -/

/-- Witness for `splitDistances_last` at `buildSplitDistances 200 half`,
whose last element is 200. -/
theorem splitDistances_last_witness :
    |(200 : ℚ) - 200| ≤ 1/1000000 ∨
      (∃ n : ℕ, (200 : ℚ) = (n : ℚ) * splitStep SplitChoice.half ∧ (200 : ℚ) ≤ 200) ∨
      (200 : ℚ) = roundTo 200 3 :=
  splitDistances_last 200 SplitChoice.half 200 (by
    norm_num +decide [buildSplitDistances, splitStep, HALF_M, LAP_M, splitMultiples,
      withEndDistance, setOfList, setAdd, List.insertionSort, List.orderedInsert,
      List.range_succ, List.range_zero, intToNat_one, roundTo, List.getLast?_singleton,
      List.getLast?_cons_cons])

/-- Witness for `buildMetrics_deltas` on the 0→100 row of `marksHundred`. -/
theorem buildMetrics_deltas_witness :
    0 < ({ fromDist := 0, toDist := 100, deltaT := 10, deltaD := 100, velocityKmh := 36,
           acceleration := none } : MetricsRow).deltaD ∧
    0 ≤ ({ fromDist := 0, toDist := 100, deltaT := 10, deltaD := 100, velocityKmh := 36,
           acceleration := none } : MetricsRow).deltaT ∧
    ∃ dt dd : ℚ, 0 < dt ∧ 0 < dd ∧
      ({ fromDist := 0, toDist := 100, deltaT := 10, deltaD := 100, velocityKmh := 36,
         acceleration := none } : MetricsRow).deltaT = roundTo dt 3 ∧
      ({ fromDist := 0, toDist := 100, deltaT := 10, deltaD := 100, velocityKmh := 36,
         acceleration := none } : MetricsRow).deltaD = roundTo dd 3 ∧
      ({ fromDist := 0, toDist := 100, deltaT := 10, deltaD := 100, velocityKmh := 36,
         acceleration := none } : MetricsRow).velocityKmh = roundTo (dd / dt * 3.6) 3 :=
  buildMetrics_deltas [100] marksHundred _
    (by rw [metrics_hundred_eval]; exact List.mem_singleton.mpr rfl)

/-- Witness for `buildMetrics_adjacent_pairs` on the 0→100 row of
`marksHundred`. -/
theorem buildMetrics_adjacent_pairs_witness :
    ∃ startAbs, marksHundred "Start time" = some (some startAbs) ∧
      ∃ i p q, (checkpoints [100] marksHundred startAbs)[i]? = some p ∧
        (checkpoints [100] marksHundred startAbs)[i + 1]? = some q ∧
        p.time.isSome ∧ q.time.isSome ∧
        ({ fromDist := 0, toDist := 100, deltaT := 10, deltaD := 100, velocityKmh := 36,
           acceleration := none } : MetricsRow).fromDist = roundTo p.distance 3 ∧
        ({ fromDist := 0, toDist := 100, deltaT := 10, deltaD := 100, velocityKmh := 36,
           acceleration := none } : MetricsRow).toDist = roundTo q.distance 3 :=
  buildMetrics_adjacent_pairs [100] marksHundred _
    (by rw [metrics_hundred_eval]; exact List.mem_singleton.mpr rfl)

/-- Witness for `startTime_zero_counts` on a session whose start mark is
exactly 0. -/
theorem startTime_zero_counts_witness :
    getStartTime sessionZeroStart.marks_abs = some 0 ∧
    buildMetrics [100] sessionZeroStart.marks_abs =
      metricsLoop [] (checkpoints [100] sessionZeroStart.marks_abs 0) ∧
    buildDistanceSeries sessionZeroStart = distanceSeriesEntries sessionZeroStart 0 :=
  startTime_zero_counts sessionZeroStart 0 [100]
    (by norm_num +decide [sessionZeroStart, marksHundred])

/-- Witness for `no_start_all_null` on a session with a 50 m mark but no
start mark. -/
theorem no_start_all_null_witness :
    buildMetrics sessionNoStart.distances sessionNoStart.marks_abs = [] ∧
    buildDistanceSeries sessionNoStart = [] ∧
    ∀ row ∈ buildTotalTimeRows [sessionNoStart],
      recordGet row.values sessionNoStart.videoKey = some none :=
  no_start_all_null [sessionNoStart] sessionNoStart (List.mem_singleton.mpr rfl)
    (by simp [sessionNoStart]) (by norm_num +decide [getStartTime, sessionNoStart])

/-- Witness for `fifteen_row_iff` on a session that recorded a 15 m mark. -/
theorem fifteen_row_iff_witness :
    (∃ row ∈ buildTotalTimeRows [sessionRec15], row.distance = 15) ↔
      ∃ s ∈ [sessionRec15], (s.marks_abs "15").isSome :=
  fifteen_row_iff [sessionRec15] (by simp [sessionRec15])

/-- Witness for `annotateDiffs_frame` on a one-row table with reference A. -/
theorem annotateDiffs_frame_witness :
    (annotateDiffs rowsW9 (some "A")).map (fun r => (r.distance, r.label, r.values)) =
      rowsW9.map (fun r => (r.distance, r.label, r.values)) ∧
    ∀ r ∈ annotateDiffs rowsW9 (some "A"),
      r.deltas.map Prod.fst = r.values.map Prod.fst :=
  annotateDiffs_frame rowsW9 (some "A")

end CQ
